import Mathlib

/-!
Verification of the svg-sequence layout engine (`sequence.go`) and its CFG
front end (`GenerateFromCFG`).

The Go code is shallowly embedded: Go `float64` values are modelled as exact
fractions (`Fl` below) — every operation the program performs on them
(addition, subtraction, division by 2, `min`, `max`, `math.Abs`, comparisons)
is exact in `float64` on the dyadic rationals with small numerators that
actually occur, so exact fractions are a faithful model.  Go `int` is
modelled as `Int` with `Int.tdiv` (truncation toward zero, the Go `/`
semantics) where the source divides.  Go maps are modelled as association
lists keyed by insertion, with the single `for range` loop over a map taking
an explicit enumeration of the keys as a parameter (Go does not fix a map
iteration order, so that enumeration is universally quantified in the
theorems).  Go pointers to `section` records are modelled by giving every
section a unique allocation id and updating by id.
-/

namespace SvgSeq

/-- The model of `float64`: an exact fraction, kept unnormalized so that the
kernel can evaluate every operation (no gcd).  All constructed values have a
positive denominator.  Comparisons and the float `==` test are value
comparisons by cross-multiplication; structural equality of representations
is only ever used between identically-computed values. -/
structure Fl where
  num : Int
  den : Int
deriving DecidableEq

/-- Conversion of a Go `int` to `float64` (`float64(n)`), exact on the values
in range. -/
def Fl.ofInt (n : Int) : Fl := ⟨n, 1⟩

/-- Float addition. -/
def Fl.add (a b : Fl) : Fl := ⟨a.num * b.den + b.num * a.den, a.den * b.den⟩

/-- Float subtraction. -/
def Fl.sub (a b : Fl) : Fl := ⟨a.num * b.den - b.num * a.den, a.den * b.den⟩

/-- Float division by the literal 2 (`f / 2.0`), the only float division the
program performs. -/
def Fl.half (a : Fl) : Fl := ⟨a.num, a.den * 2⟩

/-- The float `<` comparison, as a value comparison. -/
def Fl.lt (a b : Fl) : Prop := a.num * b.den < b.num * a.den

instance (a b : Fl) : Decidable (Fl.lt a b) := by unfold Fl.lt; infer_instance

/-- The float `==` comparison, as a value comparison. -/
def Fl.eqv (a b : Fl) : Prop := a.num * b.den = b.num * a.den

instance (a b : Fl) : Decidable (Fl.eqv a b) := by unfold Fl.eqv; infer_instance

/-- Go builtin `max` on float64. -/
def Fl.fmax (a b : Fl) : Fl := if Fl.lt a b then b else a

/-- Go builtin `min` on float64. -/
def Fl.fmin (a b : Fl) : Fl := if Fl.lt b a then b else a

/-- `math.Abs`. -/
def Fl.fabs (a : Fl) : Fl := if a.num < 0 then ⟨-a.num, a.den⟩ else a

/-- Truncation of a `float64` to a Go `int` (`int(f)` truncates toward
zero); exact because constructed denominators are positive. -/
def Fl.trunc (a : Fl) : Int := Int.tdiv a.num a.den

/-- Constants from the `const` block of sequence.go. -/
def margin : Int := 20

def defaultDistance : Int := 180

def defaultStepHeight : Int := 50

def actorFontSize : Int := 16

def dashArraySize : Int := actorFontSize / 2

def descriptionOffset : Int := 7

def descriptionOffsetFactor : Int := 2

/-- Model of `section` (sequence.go): the geometry fields `x, x2, y, width`
are `float64` in Go (here `Fl`), `height` is a Go `int`.  The extra `id`
field models the allocation identity of the Go `*section` pointer. -/
structure GoSection where
  id : Nat
  name : String
  color : String
  firstStepIndex : Option Int
  lastStepIndex : Option Int
  x : Fl
  x2 : Fl
  y : Fl
  width : Fl
  height : Int
deriving DecidableEq

/-- Model of `Step` (sequence.go).  `sectionId` models the `section *section`
back reference through the section allocation id. -/
structure GoStep where
  Description : String := ""
  SourceActor : String := ""
  TargetActor : String := ""
  Color : String := ""
  x1 : Fl := Fl.ofInt 0
  x2 : Fl := Fl.ofInt 0
  y : Fl := Fl.ofInt 0
  sectionId : Option Nat := none
deriving DecidableEq

/-- Model of `Sequence` (sequence.go).  `actorsMap` models the Go
`map[string]*actor` (the `actor` struct holds only `x float64`) as an
association list; `secCounter` is the allocator for section ids. -/
structure GoSequence where
  actors : List String
  actorsMap : List (String × Fl)
  sections : List GoSection
  steps : List GoStep
  secCounter : Nat
  width : String
  height : String
  distance : Int
  stepHeight : Int
  verticalSectionText : Bool
deriving DecidableEq

/-- Lookup in the actors map (Go `s.actorsMap[a]`). -/
def mapLookup : List (String × Fl) → String → Option Fl
  | [], _ => none
  | (k, v) :: rest, key => if k = key then some v else mapLookup rest key

/-- Store in the actors map (Go `s.actorsMap[a] = ...`): replace the binding
if the key is present, append it otherwise.  Keys stay pairwise distinct, so
the list length is the Go `len` of the map. -/
def mapInsert : List (String × Fl) → String → Fl → List (String × Fl)
  | [], key, v => [(key, v)]
  | (k, w) :: rest, key, v =>
    if k = key then (k, v) :: rest else (k, w) :: mapInsert rest key v

/-- `NewSequence` (sequence.go). -/
def NewSequence : GoSequence :=
  { actors := []
    actorsMap := []
    sections := []
    steps := []
    secCounter := 0
    width := "100%"
    height := "100%"
    distance := defaultDistance
    stepHeight := defaultStepHeight
    verticalSectionText := false }

/-- `SetDistance` (sequence.go). -/
def SetDistance (s : GoSequence) (d : Int) : GoSequence := { s with distance := d }

/-- `SetWidth` (sequence.go). -/
def SetWidth (s : GoSequence) (w : String) : GoSequence := { s with width := w }

/-- `SetHeight` (sequence.go). -/
def SetHeight (s : GoSequence) (h : String) : GoSequence := { s with height := h }

/-- `SetStepHeight` (sequence.go). -/
def SetStepHeight (s : GoSequence) (h : Int) : GoSequence := { s with stepHeight := h }

/-- `SetVerticalSectionText` (sequence.go). -/
def SetVerticalSectionText (s : GoSequence) (b : Bool) : GoSequence :=
  { s with verticalSectionText := b }

/-- First loop of `AddActors`: collect the input actors that are not yet in
`actorsMap` (skipping empty names and duplicates within the input) and insert
them into the map. -/
def collectNewActors : List String → List String → List (String × Fl) →
    List String × List (String × Fl)
  | [], acc, m => (acc, m)
  | a :: rest, acc, m =>
    if a = "" then collectNewActors rest acc m
    else if (mapLookup m a).isSome then collectNewActors rest acc m
    else collectNewActors rest (acc ++ [a]) (mapInsert m a (Fl.ofInt 0))

/-- `AddActors` (sequence.go): new actors are collected in call order, then
every existing actor named in the call is removed from the old order, and the
new actors are prepended to the remaining ones. -/
def AddActors (s : GoSequence) (actors : List String) : GoSequence :=
  let p := collectNewActors actors [] s.actorsMap
  let remaining := s.actors.filter (fun a => !(actors.contains a))
  { s with actors := p.1 ++ remaining, actorsMap := p.2 }

/-- Split a character list at every occurrence of `c` (Go `strings.Split`
with a one-character separator).  The result is always nonempty. -/
def splitOnChar (c : Char) : List Char → List (List Char)
  | [] => [[]]
  | a :: rest =>
    if a = c then [] :: splitOnChar c rest
    else
      match splitOnChar c rest with
      | [] => [[a]]
      | g :: gs => (a :: g) :: gs

/-- Go `strings.Split(sv, c)` for a one-character separator. -/
def strSplitOn (sv : String) (c : Char) : List String :=
  (splitOnChar c sv.data).map String.mk

/-- `len(strings.Split(description, "\n"))`: the number of lines of a step
description. -/
def lineCount (d : String) : Nat := (strSplitOn d '\n').length

/-- `getHeight` (sequence.go): the height of a step including the text
description offset. -/
def getHeight (s : GoSequence) (st : GoStep) : Int :=
  s.stepHeight + descriptionOffset * descriptionOffsetFactor * ((lineCount st.Description : Int) - 1)

/-- `ensureActor` (sequence.go): append the actor if it is not yet in the
ordered actor list. -/
def ensureActor (s : GoSequence) (a : String) : GoSequence :=
  if s.actors.contains a then s
  else { s with actors := s.actors ++ [a], actorsMap := mapInsert s.actorsMap a (Fl.ofInt 0) }

/-- The open-sections loop of `AddStep`: walk the section list in order,
record `idx` as first member index on every section that has none, and track
the `step.section` reference, which ends up pointing at the last section in
the list whose last member index is unset. -/
def addStepSecLoop (idx : Int) : List GoSection → Option Nat →
    List GoSection × Option Nat
  | [], cur => ([], cur)
  | sec :: rest, cur =>
    let sec1 := if sec.firstStepIndex = none then { sec with firstStepIndex := some idx } else sec
    let cur1 := if sec1.lastStepIndex = none then some sec1.id else cur
    let p := addStepSecLoop idx rest cur1
    (sec1 :: p.1, p.2)

/-- The vertical position `AddStep` assigns to a step with description `d`
appended to state `s`: the previous step's `y` (or `actorFontSize + 2` for
the first step) plus the step height plus the multiline description extra. -/
def stepY (s : GoSequence) (d : String) : Fl :=
  Fl.add (Fl.add
    (match s.steps.getLast? with
     | some last => last.y
     | none => Fl.ofInt (actorFontSize + 2))
    (Fl.ofInt s.stepHeight))
    (Fl.ofInt (descriptionOffset * descriptionOffsetFactor * ((lineCount d : Int) - 1)))

/-- The step record `AddStep` appends for request `step` in state `s`: the
color normalized to the default, the computed vertical position, and the
section reference produced by the open-sections loop. -/
def addedStep (s : GoSequence) (step : GoStep) : GoStep :=
  let step1 := if step.Color = "" then { step with Color := "#000000" } else step
  { step1 with y := stepY s step1.Description,
               sectionId := (addStepSecLoop (s.steps.length : Int) s.sections none).2 }

/-- `AddStep` (sequence.go): normalize the color, compute the vertical
position, run the open-sections loop (both captured by `addedStep`), ensure
both actors, append the step. -/
def AddStep (s : GoSequence) (step : GoStep) : GoSequence :=
  let step2 := addedStep s step
  let s1 := { s with sections := (addStepSecLoop (s.steps.length : Int) s.sections none).1 }
  let s2 := if step2.SourceActor ≠ "" then ensureActor s1 step2.SourceActor else s1
  let s3 := if step2.TargetActor ≠ "" then ensureActor s2 step2.TargetActor else s2
  { s3 with steps := s3.steps ++ [step2] }

/-- `OpenSection` (sequence.go): no-op on an empty name, otherwise append a
fresh section with default color and height initialized to `-10`. -/
def OpenSection (s : GoSequence) (name color : String) : GoSequence :=
  if name = "" then s
  else
    let color1 := if color = "" then "#000000" else color
    { s with
      sections := s.sections ++
        [{ id := s.secCounter, name := name, color := color1,
           firstStepIndex := none, lastStepIndex := none,
           x := Fl.ofInt 0, x2 := Fl.ofInt 0, y := Fl.ofInt 0, width := Fl.ofInt 0,
           height := -10 }]
      secCounter := s.secCounter + 1 }

/-- The scan of `CloseSection`, walking the section list from the end: close
the last section that has a first member index but no last member index, by
recording `idx` as its last member index.  The Bool reports whether a section
was closed. -/
def closeFromEnd (idx : Int) : List GoSection → List GoSection × Bool
  | [] => ([], false)
  | sec :: rest =>
    let p := closeFromEnd idx rest
    if p.2 then (sec :: p.1, true)
    else if sec.firstStepIndex.isSome && sec.lastStepIndex == none then
      ({ sec with lastStepIndex := some idx } :: p.1, true)
    else (sec :: p.1, false)

/-- `CloseSection` (sequence.go). -/
def CloseSection (s : GoSequence) : GoSequence :=
  { s with sections := (closeFromEnd ((s.steps.length : Int) - 1) s.sections).1 }

/-- `CloseAllSections` (sequence.go): force-close every section that has a
first member index but no last member index, then keep only the sections that
have both indices. -/
def CloseAllSections (s : GoSequence) : GoSequence :=
  let idx := (s.steps.length : Int) - 1
  let secs := s.sections.map fun sec =>
    if sec.firstStepIndex.isSome && sec.lastStepIndex == none then
      { sec with lastStepIndex := some idx }
    else sec
  { s with sections :=
      secs.filter fun sec => sec.firstStepIndex.isSome && sec.lastStepIndex.isSome }

/-- First loop of `setup`: check that every step has non-empty source and
target actor names; the error message carries the 1-based step position. -/
def checkStepsActors : List GoStep → Nat → Except String Unit
  | [], _ => .ok ()
  | st :: rest, i =>
    if st.SourceActor = "" ∨ st.TargetActor = "" then
      .error ("step #" ++ toString (i + 1) ++ " defined an actor with an empty name")
    else checkStepsActors rest (i + 1)

/-- Last loop of `setup`: return the first section whose last member index is
still unset, if any. -/
def firstOpenSection : List GoSection → Option GoSection
  | [] => none
  | sec :: rest => if sec.lastStepIndex = none then some sec else firstOpenSection rest

/-- The section list after the empty-section deletion of `setup`. -/
def setupSections (s : GoSequence) : GoSequence :=
  { s with sections := s.sections.filter fun sec => sec.firstStepIndex.isSome }

/-- `setup` (sequence.go): validate step actors, delete the sections that
never received a step, and fail on the first remaining unclosed section. -/
def setup (s : GoSequence) : Except String GoSequence :=
  match checkStepsActors s.steps 0 with
  | .error e => .error e
  | .ok _ =>
    match firstOpenSection (setupSections s).sections with
    | some sec => .error ("found open section: " ++ sec.name)
    | none => .ok (setupSections s)

/-- The `for range s.actorsMap` loop of `totalWidth`, taken over an explicit
enumeration of the map keys. -/
def totalWidthLoop (d : Int) : List String → Int → Int
  | [], w => w
  | _ :: rest, w => totalWidthLoop d rest (w + d)

/-- `totalWidth` (sequence.go), parameterized by the order in which the Go
runtime enumerates `s.actorsMap`. -/
def totalWidth (s : GoSequence) (mapOrder : List String) : Int :=
  totalWidthLoop s.distance mapOrder (margin * 2)

/-- The rounding loop at the end of `totalHeight` (sequence.go): increment
the height until it is a multiple of the dash-array unit, here with an
explicit fuel so that the recursion is structural.  The loop guard only
tests divisibility, on which the Go remainder and `Int.emod` agree. -/
def roundToDashLoop : Nat → Int → Int
  | 0, h => h
  | fuel + 1, h => if h % dashArraySize = 0 then h else roundToDashLoop fuel (h + 1)

/-- Entry point of the rounding loop.  The Go loop increments until the
remainder modulo `dashArraySize` vanishes, which takes fewer than
`dashArraySize` increments, so `dashArraySize` iterations of fuel always
reach the fixed point; `roundToDash_eq` below proves that with this fuel the
function satisfies exactly the recurrence of the Go loop. -/
def roundToDash (h : Int) : Int := roundToDashLoop dashArraySize.toNat h

/-- `totalHeight` (sequence.go): the base height before the rounding loop is
`actorFontSize + 2` plus the heights of all steps plus half a step height of
extra margin. -/
def totalHeight (s : GoSequence) : Int :=
  roundToDash ((s.steps.foldl (fun acc st => acc + getHeight s st) (actorFontSize + 2)) +
    Int.tdiv s.stepHeight 2)

/-- The drawing primitives `Generate` emits, mirroring the element structs of
the markup model (svg.go).  The `defs` block (style sheet plus the two marker
definitions) is constant data embedded from assets, modelled as the nullary
`defsElem`.  Field order: as listed in each constructor comment. -/
inductive SvgElem where
  /-- The constant definitions block: style plus `seq-dot` and `seq-arrow`
  markers. -/
  | defsElem : SvgElem
  /-- `rect`: x, y, width, height, fill, fill-opacity, stroke, stroke-width. -/
  | rectElem (x y w h : Fl) (fill : String) (fillOpacity : Fl)
      (stroke : String) (strokeWidth : Int) : SvgElem
  /-- `line`: x1, y1, x2, y2, fill, stroke, stroke-width, stroke-dasharray,
  marker-start, marker-end. -/
  | lineElem (x1 y1 x2 y2 : Fl) (fill stroke : String) (strokeWidth : Int)
      (strokeDasharray markerStart markerEnd : String) : SvgElem
  /-- `text`: class, x, y, fill, stroke, font-size, text-anchor,
  writing-mode, transform, content. -/
  | textElem (cls : String) (x y : Fl)
      (fill stroke fontSize textAnchor writingMode transform content : String) : SvgElem
  /-- `circle`: cx, cy, r, fill. -/
  | circleElem (cx cy : Fl) (r : Int) (fill : String) : SvgElem
deriving DecidableEq

/-- Whether a primitive is a directed line (the arrow form of a step). -/
def isDirectedLine : SvgElem → Bool
  | .lineElem _ _ _ _ _ _ _ _ _ _ => true
  | _ => false

/-- The generated document: root attributes and the element list, in emission
order.  Serializing this tree to markup is a pure function of it, performed
by the external encoder. -/
structure SvgOut where
  width : String
  height : String
  viewBox : String
  elements : List SvgElem
deriving DecidableEq

/-- The dashed lifeline emitted for an actor at lane `x` on a canvas of total
height `th`. -/
def actorLifeline (x : Fl) (th : Int) : SvgElem :=
  .lineElem x (Fl.ofInt ((actorFontSize + 2) + dashArraySize)) x (Fl.ofInt th) "" "#CCCCCC" 2
    (toString dashArraySize ++ " " ++ toString dashArraySize) "" ""

/-- The name label emitted for an actor at lane `x`. -/
def actorLabel (x : Fl) (name : String) : SvgElem :=
  .textElem "" x (Fl.ofInt (actorFontSize + 2)) "#000000" "none" (toString actorFontSize)
    "middle" "" "" name

/-- The draw-actors loop of `Generate`: walk the ordered actor list, emitting
the dashed lifeline and the label for each actor, assigning the running `x`
as the actor's lane coordinate in the map, and stepping `x` by the configured
distance. -/
def drawActorsLoop (d : Int) (th : Int) : List String → Int → List (String × Fl) →
    List SvgElem × List (String × Fl)
  | [], _, m => ([], m)
  | name :: rest, x, m =>
    let p := drawActorsLoop d th rest (x + d) (mapInsert m name (Fl.ofInt x))
    (actorLifeline (Fl.ofInt x) th :: actorLabel (Fl.ofInt x) name :: p.1, p.2)

/-- The lane assignment and element emission for all actors: starts at
`margin + distance/2` as `Generate` does. -/
def drawActors (s : GoSequence) (th : Int) : List SvgElem × List (String × Fl) :=
  drawActorsLoop s.distance th s.actors (margin + Int.tdiv s.distance 2) s.actorsMap

/-- Folding one step's geometry into its section's running bounding box
(the `st.section != nil` block of `Generate`). -/
def accumSection (s : GoSequence) (st : GoStep) (sec0 : GoSection) : GoSection :=
  let stHeight := getHeight s st
  let sec1 := { sec0 with height := sec0.height + stHeight }
  let minSecY := Fl.fmax (Fl.ofInt 0)
    (Fl.add (Fl.sub st.y (Fl.ofInt stHeight)) (Fl.half (Fl.ofInt s.stepHeight)))
  let sec2 := if Fl.eqv sec1.y (Fl.ofInt 0) ∨ Fl.lt minSecY sec1.y then
      { sec1 with y := minSecY } else sec1
  let minSecX := Fl.fmax (Fl.ofInt 1)
    (Fl.sub (Fl.fmin st.x1 st.x2) (Fl.ofInt (Int.tdiv s.distance 2)))
  let sec3 := if Fl.eqv sec2.x (Fl.ofInt 0) ∨ Fl.lt minSecX sec2.x then
      { sec2 with x := minSecX } else sec2
  let maxSecX := Fl.add (Fl.fmax st.x1 st.x2) (Fl.ofInt (Int.tdiv s.distance 2))
  let sec4 := if Fl.eqv sec3.x2 (Fl.ofInt 0) ∨ Fl.lt sec3.x2 maxSecX then
      { sec3 with x2 := maxSecX } else sec3
  let sw := Fl.fmax (Fl.ofInt 0) (Fl.fabs (Fl.sub sec4.x sec4.x2))
  if Fl.lt sec4.width sw then { sec4 with width := sw } else sec4

/-- Update the section with the given allocation id (the model of mutating
through the `st.section` pointer). -/
def updateSectionById (secs : List GoSection) (id : Nat) (f : GoSection → GoSection) :
    List GoSection :=
  secs.map fun sec => if sec.id = id then f sec else sec

/-- The compute-steps loop of `Generate`: resolve each step's x1/x2 endpoints
from the lane map and fold sectioned steps into their section's geometry. -/
def resolveStepsLoop (s : GoSequence) (m : List (String × Fl)) :
    List GoStep → List GoSection → List GoStep × List GoSection
  | [], secs => ([], secs)
  | st :: rest, secs =>
    let st1 := { st with
      x1 := (mapLookup m st.SourceActor).getD (Fl.ofInt 0)
      x2 := (mapLookup m st.TargetActor).getD (Fl.ofInt 0) }
    let secs1 := match st1.sectionId with
      | none => secs
      | some id => updateSectionById secs id (accumSection s st1)
    let p := resolveStepsLoop s m rest secs1
    (st1 :: p.1, p.2)

/-- Rendering one section (the draw-sections loop body of `Generate`): with
horizontal labels the box is first shrunk to make space for the label; the
label is vertical (rotated, written top-to-bottom) or horizontal according to
the configuration. -/
def drawSection (vertical : Bool) (sec0 : GoSection) : List SvgElem :=
  let sec := if !vertical then
      { sec0 with height := sec0.height - 4, y := Fl.add sec0.y (Fl.ofInt 2),
                  x2 := Fl.sub sec0.x2 (Fl.ofInt 2) }
    else sec0
  let secText : SvgElem := if vertical then
      .textElem "" sec.x (Fl.sub sec.y (Fl.ofInt (Int.tdiv sec.height 2))) sec.color "none"
        "10" "middle" "tb"
        ("rotate(180," ++ toString (Fl.trunc (Fl.sub sec.x (Fl.ofInt 4))) ++ "," ++
          toString (Fl.trunc sec.y) ++ ")") sec.name
    else
      .textElem "" sec.x (Fl.sub sec.y (Fl.ofInt 2)) sec.color "none" "10" "start" "" "" sec.name
  [.rectElem sec.x sec.y sec.width (Fl.ofInt sec.height) sec.color ⟨1, 10⟩
      sec.color 1, secText]

/-- The description lines of a step, emitted from the last line upward with a
growing offset; takes the reversed line list, mirroring the downward loop. -/
def drawDescLoop (st : GoStep) : List String → Fl → List SvgElem
  | [], _ => []
  | p :: rest, offset =>
    .textElem "seq-desc" (Fl.half (Fl.add st.x1 st.x2)) (Fl.sub st.y offset) st.Color "none" "10"
        "middle" "" "" p ::
      drawDescLoop st rest (Fl.add offset (Fl.ofInt (descriptionOffset * descriptionOffsetFactor)))

/-- Rendering one step (the draw-steps loop body of `Generate`): a dot when
both endpoints coincide, a directed line with dot and arrow markers
otherwise, followed by the stacked description lines. -/
def drawStep (st : GoStep) : List SvgElem :=
  let mark : List SvgElem :=
    if Fl.eqv st.x1 st.x2 then [.circleElem st.x1 st.y 4 st.Color]
    else
      let x2 := if Fl.lt st.x1 st.x2 then Fl.sub st.x2 (Fl.ofInt 5) else Fl.add st.x2 (Fl.ofInt 5)
      [.lineElem st.x1 st.y x2 st.y st.Color st.Color 2 "" "url(#seq-dot)" "url(#seq-arrow)"]
  let descs : List SvgElem :=
    if st.Description ≠ "" then
      drawDescLoop st (strSplitOn st.Description '\n').reverse (Fl.ofInt descriptionOffset)
    else []
  mark ++ descs

/-- The body of `Generate` after a successful `setup`, applied to the
post-`setup` state: viewBox, then definitions, background, actors, sections
and steps, in emission order. -/
def generateBody (s : GoSequence) (mapOrder : List String) : SvgOut :=
  let tw := totalWidth s mapOrder
  let th := totalHeight s
  let pa := drawActors s th
  let pr := resolveStepsLoop s pa.2 s.steps s.sections
  let secEs := (pr.2.map (drawSection s.verticalSectionText)).flatten
  let stepEs := (pr.1.map drawStep).flatten
  { width := s.width
    height := s.height
    viewBox := "0 0 " ++ toString tw ++ " " ++ toString th
    elements := [SvgElem.defsElem] ++
      [SvgElem.rectElem (Fl.ofInt 0) (Fl.ofInt 0) (Fl.ofInt tw) (Fl.ofInt th)
          "#FFFFFF" (Fl.ofInt 0) "" 0] ++
      pa.1 ++ secEs ++ stepEs }

/-- `Generate` (sequence.go), with the Go-runtime enumeration order of
`s.actorsMap` as an explicit parameter: precondition checks, `setup`, then
the emission pass. -/
def generate (s0 : GoSequence) (mapOrder : List String) : Except String SvgOut :=
  if s0.actors.length = 0 then .error "sequence has no actors"
  else if s0.steps.length = 0 then .error "sequence has no steps"
  else
    match setup s0 with
    | .error e => .error e
    | .ok s => .ok (generateBody s mapOrder)

/-- Drop leading whitespace characters. -/
def dropLeadingWS : List Char → List Char
  | [] => []
  | c :: rest => if c.isWhitespace then dropLeadingWS rest else c :: rest

/-- Go `strings.TrimSpace`, over the whitespace characters that occur in
config files. -/
def strTrim (sv : String) : String :=
  String.mk (dropLeadingWS (dropLeadingWS sv.data.reverse).reverse)

/-- Decode every literal backslash-n two-character sequence to a real line
break (Go `strings.ReplaceAll(s, "\n" (raw), "\n")`), scanning left to right. -/
def decodeNL : List Char → List Char
  | '\\' :: 'n' :: rest => '\n' :: decodeNL rest
  | c :: rest => c :: decodeNL rest
  | [] => []

/-- Drop `pre` from the front of `l` if it is a prefix, reporting failure
otherwise. -/
def dropPrefixL : List Char → List Char → Option (List Char)
  | l, [] => some l
  | [], _ :: _ => none
  | a :: l, b :: pre => if a = b then dropPrefixL l pre else none

/-- Go `strings.TrimPrefix`. -/
def goTrimPrefix (sv pre : String) : String :=
  match dropPrefixL sv.data pre.data with
  | some rest => String.mk rest
  | none => sv

/-- Join character-list groups with the character `c` between them. -/
def intercalateChar (c : Char) : List (List Char) → List Char
  | [] => []
  | [g] => g
  | g :: gs => g ++ c :: intercalateChar c gs

/-- Go `strings.Cut(sv, "=")`: split at the first `=`, reporting whether one
was found. -/
def goCutEq (sv : String) : String × String × Bool :=
  match splitOnChar '=' sv.data with
  | [] => (sv, "", false)
  | [_] => (sv, "", false)
  | x :: rest => (String.mk x, String.mk (intercalateChar '=' rest), true)

/-- `parseProperty` (config parser): strip the directive word, split the rest
on commas, trim each value, decode literal backslash-n sequences, and drop
the values that are empty after trimming. -/
def parseProperty (line property : String) : List String :=
  ((strSplitOn (goTrimPrefix line property) ',').map
      (fun p => String.mk (decodeNL (strTrim p).data))).filter (fun t => t ≠ "")

/-- `parseIntDefault` (config parser): Go `strconv.Atoi` with a fallback. -/
def parseIntDefault (sv : String) (d : Int) : Int :=
  match sv.toInt? with
  | some n => n
  | none => d

/-- One iteration of the `GenerateFromCFG` scan loop, at 1-based line number
`lineNum`: trim, skip blanks and comments, apply `key = value` options, then
dispatch on the `@` directive. -/
def processLine (s : GoSequence) (raw : String) (lineNum : Nat) : Except String GoSequence :=
  let line := strTrim raw
  if line = "" then .ok s
  else if line.data.headD ' ' = '#' then .ok s
  else
    let cut := goCutEq line
    let key := strTrim cut.1
    let val := strTrim cut.2.1
    let s1 :=
      if cut.2.2 then
        if key = "distance_between_actors" then SetDistance s (parseIntDefault val 180)
        else if key = "width" then SetWidth s val
        else if key = "height" then SetHeight s val
        else s
      else s
    let property := (strSplitOn line ' ').headD ""
    if property.data.headD ' ' ≠ '@' then .ok s1
    else if property = "@actors" then .ok (AddActors s1 (parseProperty line property))
    else if property = "@start" then
      match parseProperty line property with
      | [] => .error ("section needs a name at line " ++ toString lineNum)
      | [n] => .ok (OpenSection s1 n "")
      | n :: c :: _ => .ok (OpenSection s1 n c)
    else if property = "@end" then .ok (CloseSection s1)
    else if property = "@step" then
      match parseProperty line property with
      | [] => .error ("not enough values for step at line " ++ toString lineNum)
      | [_] => .error ("not enough values for step at line " ++ toString lineNum)
      | [a, b] => .ok (AddStep s1 { Description := "", SourceActor := a, TargetActor := b, Color := "" })
      | [a, b, d] => .ok (AddStep s1 { Description := d, SourceActor := a, TargetActor := b, Color := "" })
      | a :: b :: d :: c :: _ => .ok (AddStep s1 { Description := d, SourceActor := a, TargetActor := b, Color := c })
    else .error ("unknown property: \"" ++ property ++ "\" at line " ++ toString lineNum)

/-- The whole scan loop of `GenerateFromCFG`, threading the 1-based line
counter. -/
def processAll : GoSequence → List String → Nat → Except String GoSequence
  | s, [], _ => .ok s
  | s, l :: rest, n =>
    match processLine s l n with
    | .error e => .error e
    | .ok s1 => processAll s1 rest (n + 1)

/-- The lines the scanner yields for a file content: split on line breaks; a
trailing line break yields no extra empty line. -/
def splitLines (content : String) : List String :=
  let parts := strSplitOn content '\n'
  match parts.getLast? with
  | some "" => parts.dropLast
  | _ => parts

/-- `GenerateFromCFG` (config parser) on the content of the input file, with
the map enumeration order passed through to `generate`. -/
def generateFromCFG (content : String) (mapOrder : List String) : Except String SvgOut :=
  match processAll NewSequence (splitLines content) 1 with
  | .error e => .error e
  | .ok s => generate s mapOrder

/-- Decidable equality of results, so that concrete runs can be checked by
evaluation. -/
instance {e a : Type} [DecidableEq e] [DecidableEq a] : DecidableEq (Except e a) := fun x y =>
  match x, y with
  | .error u, .error v =>
    if h : u = v then isTrue (by rw [h]) else isFalse (by intro hh; cases hh; exact h rfl)
  | .ok u, .ok v =>
    if h : u = v then isTrue (by rw [h]) else isFalse (by intro hh; cases hh; exact h rfl)
  | .error _, .ok _ => isFalse (by intro hh; cases hh)
  | .ok _, .error _ => isFalse (by intro hh; cases hh)

/-- The model-construction calls of the public API, for stating properties of
every reachable `Sequence` value. -/
inductive Call where
  | addActors (actors : List String)
  | addStep (st : GoStep)
  | openSection (name color : String)
  | closeSection
  | closeAllSections
  | setDistance (d : Int)
  | setWidth (w : String)
  | setHeight (h : String)
  | setStepHeight (h : Int)
  | setVerticalSectionText (b : Bool)

/-- Interpretation of one construction call. -/
def applyCall (s : GoSequence) : Call → GoSequence
  | .addActors actors => AddActors s actors
  | .addStep st => AddStep s st
  | .openSection name color => OpenSection s name color
  | .closeSection => CloseSection s
  | .closeAllSections => CloseAllSections s
  | .setDistance d => SetDistance s d
  | .setWidth w => SetWidth s w
  | .setHeight h => SetHeight s h
  | .setStepHeight h => SetStepHeight s h
  | .setVerticalSectionText b => SetVerticalSectionText s b

/-- The `Sequence` value built by a list of construction calls on a fresh
`NewSequence`. -/
def run (cs : List Call) : GoSequence := cs.foldl applyCall NewSequence

/-- The lane map after the actor-drawing pass: every actor in the ordered
list bound to its assigned lane x-coordinate. -/
def laneMap (s : GoSequence) : List (String × Fl) := (drawActors s (totalHeight s)).2

/-- The step list after the endpoint-resolution pass of `Generate`. -/
def resolvedSteps (s : GoSequence) : List GoStep :=
  (resolveStepsLoop s (laneMap s) s.steps s.sections).1

/-- The vertical advance of a step in the claims: the base step height plus
the multiline-description extra
`(descriptionOffset * descriptionOffsetFactor) * (lineCount - 1)`. -/
def stepAdvance (sh : Int) (d : String) : Int :=
  sh + descriptionOffset * descriptionOffsetFactor * ((lineCount d : Int) - 1)

/-- Repeated `AddStep` calls. -/
def runSteps (s : GoSequence) (reqs : List GoStep) : GoSequence := reqs.foldl AddStep s

/-- The vertical positions the claims predict for a run of descriptions
starting below `prev`: each step advances by its own `stepAdvance`. -/
def specYs (sh : Int) (prev : Int) : List String → List Int
  | [] => []
  | d :: rest => (prev + stepAdvance sh d) :: specYs sh (prev + stepAdvance sh d) rest

/-- The canvas height formula of the specification before rounding, for
comparison with the code's `totalHeight`: `(actorFontSize + 2)` plus the sum
of the step heights plus half a base step height. -/
def claimHeightBase (s : GoSequence) : Int :=
  (actorFontSize + 2) + (s.steps.map (getHeight s)).sum + Int.tdiv s.stepHeight 2

/-- The invariant tying the stored vertical positions to the claim formula:
the `y` fields of the step list are precisely the predicted positions for the
list's own descriptions, as integers. -/
def ysSpec (sh : Int) (l : List GoStep) : Prop :=
  l.map (fun st => st.y) =
    (specYs sh (actorFontSize + 2) (l.map (fun st => st.Description))).map Fl.ofInt

/-- A plain step between actors a and b, used in concrete runs. -/
def stepAB : GoStep := { SourceActor := "a", TargetActor := "b" }

/-- A step with a two-line description, used in concrete runs. -/
def stepTwoLines : GoStep := { SourceActor := "a", TargetActor := "b", Description := "x\ny" }

/-- The first and second step records of the concrete two-step run. -/
def c2step0 : GoStep := ((runSteps NewSequence [stepAB, stepTwoLines]).steps[0]?).getD {}

def c2step1 : GoStep := ((runSteps NewSequence [stepAB, stepTwoLines]).steps[1]?).getD {}

/-- The sequence of the README example: a step, then a section holding a
self-call with a two-line description and a reply. -/
def exSeq : GoSequence :=
  CloseSection (AddStep (AddStep (OpenSection (AddStep NewSequence
    { SourceActor := "Bob", TargetActor := "Maria", Description := "Hi! How are you doing?" })
    "response" "")
    { SourceActor := "Maria", TargetActor := "Maria",
      Description := "*Thinks*\nLong time no see...", Color := "#667777" })
    { SourceActor := "Maria", TargetActor := "Bob", Description := "Fine!" })

/-- The self-call request of the README example (its second step) and its
resolved counterpart. -/
def c8req : GoStep := (exSeq.steps[1]?).getD {}

def c8st : GoStep := ((resolvedSteps (setupSections exSeq))[1]?).getD {}

/-- The section index invariant: in any state reachable through the public
API, a recorded first member index is a valid step index, and a recorded last
member index comes with a first member index bounded by it. -/
def secIndexInv (s : GoSequence) : Prop :=
  ∀ sec ∈ s.sections,
    (∀ f : Int, sec.firstStepIndex = some f → 0 ≤ f ∧ f < (s.steps.length : Int)) ∧
    (∀ lx : Int, sec.lastStepIndex = some lx →
      ∃ f : Int, sec.firstStepIndex = some f ∧ f ≤ lx ∧ lx < (s.steps.length : Int))

/-- A concrete construction-call run for the section index invariant: a
step, a section around the second step, closed at the end. -/
def c10calls : List Call :=
  [.addStep stepAB, .openSection "S" "", .addStep stepAB, .closeSection]

/-- A placeholder section record for `Option.getD`. -/
def dummySection : GoSection :=
  { id := 0, name := "", color := "", firstStepIndex := none, lastStepIndex := none,
    x := Fl.ofInt 0, x2 := Fl.ofInt 0, y := Fl.ofInt 0, width := Fl.ofInt 0, height := 0 }

/-- The surviving section of the concrete run, after `setup`. -/
def c10sec : GoSection := ((setupSections (run c10calls)).sections[0]?).getD dummySection

/-! ## General lemmas -/

theorem splitOnChar_ne_nil (c : Char) (l : List Char) : splitOnChar c l ≠ [] := by
  cases l with
  | nil => simp [splitOnChar]
  | cons a rest =>
    unfold splitOnChar
    split
    · simp
    · split <;> simp

theorem lineCount_pos (d : String) : 0 < lineCount d := by
  unfold lineCount strSplitOn
  simp only [List.length_map]
  exact List.length_pos.mpr (splitOnChar_ne_nil _ _)

theorem totalWidthLoop_eq (d : Int) (l : List String) (w : Int) :
    totalWidthLoop d l w = w + d * l.length := by
  induction l generalizing w with
  | nil => simp [totalWidthLoop]
  | cons x xs ih => simp [totalWidthLoop, ih]; ring

theorem roundToDashLoop_closed (fuel : Nat) (h : Int)
    (hf : ((8 - h % 8) % 8).toNat ≤ fuel) :
    roundToDashLoop fuel h = h + (8 - h % 8) % 8 := by
  induction fuel generalizing h with
  | zero =>
    simp only [roundToDashLoop]
    omega
  | succ n ih =>
    have e : dashArraySize = 8 := by decide
    simp only [roundToDashLoop, e]
    by_cases h0 : h % 8 = 0
    · simp only [h0, if_true]
      omega
    · simp only [h0, if_false]
      rw [ih (h + 1) (by omega)]
      omega

theorem roundToDash_closed (h : Int) : roundToDash h = h + (8 - h % 8) % 8 := by
  have e : dashArraySize.toNat = 8 := by decide
  unfold roundToDash
  rw [e]
  exact roundToDashLoop_closed 8 h (by omega)

/-- Faithfulness of the fuel-based rounding: it satisfies exactly the
recurrence of the Go loop `for height%dashArraySize != 0 { height++ }`. -/
theorem roundToDash_eq (h : Int) :
    roundToDash h = if h % dashArraySize = 0 then h else roundToDash (h + 1) := by
  have e : dashArraySize = 8 := by decide
  rw [roundToDash_closed, e]
  split
  · omega
  · rw [roundToDash_closed]
    omega

theorem foldl_getHeight (s : GoSequence) (l : List GoStep) (acc : Int) :
    l.foldl (fun a st => a + getHeight s st) acc = acc + (l.map (getHeight s)).sum := by
  induction l generalizing acc with
  | nil => simp
  | cons x xs ih => simp [ih]; ring

theorem totalHeight_eq_round_base (s : GoSequence) :
    totalHeight s = roundToDash (claimHeightBase s) := by
  unfold totalHeight claimHeightBase
  rw [foldl_getHeight]

theorem setup_ok {s s' : GoSequence} (hg : setup s = .ok s') : s' = setupSections s := by
  unfold setup at hg
  split at hg
  · cases hg
  · split at hg
    · cases hg
    · cases hg
      rfl

theorem generate_ok {s : GoSequence} {o : List String} {out : SvgOut}
    (hg : generate s o = .ok out) :
    out = generateBody (setupSections s) o ∧ setup s = .ok (setupSections s) := by
  unfold generate at hg
  split at hg
  · cases hg
  · split at hg
    · cases hg
    · split at hg
      · cases hg
      · rename_i s1 hs1
        cases hg
        have h1 := setup_ok hs1
        subst h1
        exact ⟨rfl, hs1⟩

/-! ## Claim C1 -/

/-- C1: the claim states that re-registering known actors repositions them:
from actor order `[A, B, C]`, `AddActors("C", "A")` should yield
`[C, A, B]`.  Evaluating the code at that input instead yields `[B]`: the
first loop of `AddActors` only collects actors that are not yet in the map,
so the already-known `C` and `A` are removed from the order by the second
loop and never re-inserted.  This contradicts the function's own
documentation ("adds the given actors to the sequence, in order; use this to
ensure the order of the actors"), so it is a bug in the code. -/
theorem claim_C1_addActors_reregistration :
    (AddActors (AddActors NewSequence ["A", "B", "C"]) ["C", "A"]).actors = ["B"] := by decide

/-! ## Claim C4 -/

theorem generateBody_order_congr (s : GoSequence) {o1 o2 : List String}
    (h : o1.length = o2.length) : generateBody s o1 = generateBody s o2 := by
  unfold generateBody
  have ht : totalWidth s o1 = totalWidth s o2 := by
    unfold totalWidth
    rw [totalWidthLoop_eq, totalWidthLoop_eq, h]
  rw [ht]

/-- C4: `Generate` is deterministic.  All state iterated during generation is
kept in insertion-ordered lists; the single loop over the unordered
`actorsMap` (inside `totalWidth`) only counts the entries, so whichever two
enumeration orders the Go runtime produces for the map's keys on two runs of
the same construction calls, the outputs are identical. -/
theorem claim_C4_generate_deterministic (s : GoSequence) (o1 o2 : List String)
    (h1 : o1.Perm (s.actorsMap.map Prod.fst)) (h2 : o2.Perm (s.actorsMap.map Prod.fst)) :
    generate s o1 = generate s o2 := by
  have hl : o1.length = o2.length := by rw [h1.length_eq, h2.length_eq]
  unfold generate
  split
  · rfl
  · split
    · rfl
    · cases hs : setup s
      · rfl
      · rename_i s1
        exact congrArg Except.ok (generateBody_order_congr s1 hl)

/-- Witness for C4 at the README example with two different enumeration
orders of the two actors. -/
theorem claim_C4_witness :
    ["Bob", "Maria"].Perm (exSeq.actorsMap.map Prod.fst) ∧
    ["Maria", "Bob"].Perm (exSeq.actorsMap.map Prod.fst) ∧
    generate exSeq ["Bob", "Maria"] = generate exSeq ["Maria", "Bob"] :=
  ⟨by decide, by decide,
    claim_C4_generate_deterministic exSeq _ _ (by decide) (by decide)⟩

/-! ## Claim C6 -/

/-- C6: for every successful generation, the viewBox height is the code's
`totalHeight`, which equals the claim's base formula
`(actorFontSize + 2) + Σ stepHeight(step) + stepHeight/2` rounded up to the
next multiple of `actorFontSize/2`; in particular it is an exact multiple of
`actorFontSize/2`. -/
theorem claim_C6_canvas_height (s : GoSequence) (o : List String) (out : SvgOut)
    (hg : generate s o = .ok out) :
    out.viewBox = "0 0 " ++ toString (totalWidth s o) ++ " " ++ toString (totalHeight s) ∧
    claimHeightBase s ≤ totalHeight s ∧
    totalHeight s < claimHeightBase s + actorFontSize / 2 ∧
    totalHeight s % (actorFontSize / 2) = 0 := by
  obtain ⟨hout, -⟩ := generate_ok hg
  have e8 : actorFontSize / 2 = (8 : Int) := by decide
  refine ⟨by rw [hout]; rfl, ?_, ?_, ?_⟩ <;>
    (rw [totalHeight_eq_round_base, roundToDash_closed]; (try rw [e8]); omega)

/-- Witness for C6 at the README example. -/
theorem claim_C6_witness :
    generate exSeq ["Bob", "Maria"] = .ok (generateBody (setupSections exSeq) ["Bob", "Maria"]) ∧
    (generateBody (setupSections exSeq) ["Bob", "Maria"]).viewBox =
      "0 0 " ++ toString (totalWidth exSeq ["Bob", "Maria"]) ++ " " ++ toString (totalHeight exSeq) ∧
    totalHeight exSeq % (actorFontSize / 2) = 0 := by
  have hg : generate exSeq ["Bob", "Maria"] =
      .ok (generateBody (setupSections exSeq) ["Bob", "Maria"]) := by decide
  exact ⟨hg, (claim_C6_canvas_height exSeq _ _ hg).1, (claim_C6_canvas_height exSeq _ _ hg).2.2.2⟩

/-! ## Claim C5 -/

theorem drawActorsLoop_length (d th : Int) (names : List String) (x : Int)
    (m : List (String × Fl)) :
    (drawActorsLoop d th names x m).1.length = 2 * names.length := by
  induction names generalizing x m with
  | nil => simp [drawActorsLoop]
  | cons n rest ih =>
    simp [drawActorsLoop, ih]
    omega

theorem drawActorsLoop_get (d th : Int) (names : List String) (x : Int)
    (m : List (String × Fl)) (i : Nat) (hi : i < names.length) :
    (drawActorsLoop d th names x m).1[2 * i]? =
      some (actorLifeline (Fl.ofInt (x + i * d)) th) ∧
    (drawActorsLoop d th names x m).1[2 * i + 1]? =
      some (actorLabel (Fl.ofInt (x + i * d)) (names.get ⟨i, hi⟩)) := by
  induction names generalizing x m i with
  | nil => exact absurd hi (by simp)
  | cons n rest ih =>
    cases i with
    | zero => simp [drawActorsLoop]
    | succ j =>
      have hj : j < rest.length := by simpa using hi
      have hx : x + d + j * d = x + (j + 1 : Nat) * d := by push_cast; ring
      obtain ⟨ha, hb⟩ := ih (x + d) (mapInsert m n (Fl.ofInt x)) j hj
      rw [hx] at ha hb
      have h1 : 2 * (j + 1) = 2 * j + 1 + 1 := by omega
      have h2 : 2 * (j + 1) + 1 = (2 * j + 1) + 1 + 1 := by omega
      refine ⟨?_, ?_⟩
      · rw [h1]
        simpa [drawActorsLoop] using ha
      · rw [h2]
        simpa [drawActorsLoop] using hb

/-- C5: for every successful generation and every position `i` of the actor
registry, the lifeline and label emitted for the `i`-th actor sit at lane
x-coordinate `margin + distance/2 + i*distance` (Go integer division), with
`margin = 20`.  The two elements are at positions `2i` and `2i+1` of the
element list after the definitions block and background rectangle. -/
theorem claim_C5_lane_assignment (s : GoSequence) (o : List String) (out : SvgOut)
    (hg : generate s o = .ok out) (i : Nat) (hi : i < s.actors.length) :
    (out.elements.drop 2)[2 * i]? =
      some (actorLifeline (Fl.ofInt (margin + Int.tdiv s.distance 2 + i * s.distance))
        (totalHeight s)) ∧
    (out.elements.drop 2)[2 * i + 1]? =
      some (actorLabel (Fl.ofInt (margin + Int.tdiv s.distance 2 + i * s.distance))
        (s.actors.get ⟨i, hi⟩)) ∧
    margin = 20 := by
  obtain ⟨hout, -⟩ := generate_ok hg
  subst hout
  have hdrop : (generateBody (setupSections s) o).elements.drop 2 =
      (drawActors (setupSections s) (totalHeight (setupSections s))).1 ++
        ((resolveStepsLoop (setupSections s)
            (drawActors (setupSections s) (totalHeight (setupSections s))).2
            (setupSections s).steps (setupSections s).sections).2.map
          (drawSection (setupSections s).verticalSectionText)).flatten ++
        ((resolveStepsLoop (setupSections s)
            (drawActors (setupSections s) (totalHeight (setupSections s))).2
            (setupSections s).steps (setupSections s).sections).1.map drawStep).flatten := rfl
  rw [hdrop, List.append_assoc]
  have hlen1 : 2 * i + 1 < (drawActors (setupSections s) (totalHeight (setupSections s))).1.length := by
    unfold drawActors
    rw [drawActorsLoop_length]
    have hac : (setupSections s).actors = s.actors := rfl
    rw [hac]
    omega
  have hlen : 2 * i < (drawActors (setupSections s) (totalHeight (setupSections s))).1.length := by
    omega
  rw [List.getElem?_append_left hlen, List.getElem?_append_left hlen1]
  have hget := drawActorsLoop_get (setupSections s).distance (totalHeight (setupSections s))
    (setupSections s).actors (margin + Int.tdiv (setupSections s).distance 2)
    (setupSections s).actorsMap i hi
  exact ⟨hget.1, hget.2, rfl⟩

/-- Witness for C5 at the README example, second actor (index 1). -/
theorem claim_C5_witness :
    1 < exSeq.actors.length ∧
    ((generateBody (setupSections exSeq) ["Bob", "Maria"]).elements.drop 2)[2 * 1]? =
      some (actorLifeline (Fl.ofInt (margin + Int.tdiv exSeq.distance 2 + 1 * exSeq.distance))
        (totalHeight exSeq)) := by
  have hg : generate exSeq ["Bob", "Maria"] =
      .ok (generateBody (setupSections exSeq) ["Bob", "Maria"]) := by decide
  exact ⟨by decide, (claim_C5_lane_assignment exSeq _ _ hg 1 (by decide)).1⟩

/-! ## Claim C2 -/

theorem ensureActor_steps (s : GoSequence) (a : String) : (ensureActor s a).steps = s.steps := by
  unfold ensureActor
  split <;> rfl

theorem ensureActor_stepHeight (s : GoSequence) (a : String) :
    (ensureActor s a).stepHeight = s.stepHeight := by
  unfold ensureActor
  split <;> rfl

theorem ite_seq_steps (b : Prop) [Decidable b] (t : GoSequence) (a : String) :
    (if b then ensureActor t a else t).steps = t.steps := by
  split
  · exact ensureActor_steps t a
  · rfl

theorem AddStep_steps (s : GoSequence) (r : GoStep) :
    (AddStep s r).steps = s.steps ++ [addedStep s r] := by
  unfold AddStep
  dsimp only
  rw [ite_seq_steps, ite_seq_steps]

theorem AddStep_stepHeight (s : GoSequence) (r : GoStep) :
    (AddStep s r).stepHeight = s.stepHeight := by
  unfold AddStep
  dsimp only
  split <;> split <;> simp [ensureActor_stepHeight]

theorem addedStep_Description (s : GoSequence) (r : GoStep) :
    (addedStep s r).Description = r.Description := by
  unfold addedStep
  dsimp only
  split <;> rfl

theorem addedStep_y (s : GoSequence) (r : GoStep) :
    (addedStep s r).y = stepY s r.Description := by
  unfold addedStep
  dsimp only
  split <;> rfl

theorem Fl_add_ofInt (p q : Int) : Fl.add (Fl.ofInt p) (Fl.ofInt q) = Fl.ofInt (p + q) := by
  unfold Fl.add Fl.ofInt
  simp

theorem Fl_sub_ofInt (p q : Int) : Fl.sub (Fl.ofInt p) (Fl.ofInt q) = Fl.ofInt (p - q) := by
  unfold Fl.sub Fl.ofInt
  simp

theorem Fl_lt_ofInt (p q : Int) : Fl.lt (Fl.ofInt p) (Fl.ofInt q) ↔ p < q := by
  unfold Fl.lt Fl.ofInt
  simp

theorem specYs_length (sh prev : Int) (ds : List String) :
    (specYs sh prev ds).length = ds.length := by
  induction ds generalizing prev with
  | nil => rfl
  | cons d rest ih => simp [specYs, ih]

theorem specYs_snoc (sh prev : Int) (ds : List String) (d : String) :
    specYs sh prev (ds ++ [d]) =
      specYs sh prev ds ++
        [(specYs sh prev ds).getLastD prev + stepAdvance sh d] := by
  induction ds generalizing prev with
  | nil => rfl
  | cons e es ih =>
    simp only [List.cons_append, specYs, List.getLastD_cons, List.append_eq]
    rw [ih]

theorem specYs_head (sh prev : Int) (ds : List String) (b : Int) (d : String)
    (hb : (specYs sh prev ds)[0]? = some b) (hd : ds[0]? = some d) :
    b = prev + stepAdvance sh d := by
  cases ds with
  | nil => cases hb
  | cons e es =>
    simp only [specYs, List.getElem?_cons_zero, Option.some.injEq] at hb hd
    rw [← hb, hd]

theorem specYs_succ (sh prev : Int) (ds : List String) (i : Nat) (a b : Int) (d : String)
    (ha : (specYs sh prev ds)[i]? = some a) (hb : (specYs sh prev ds)[i + 1]? = some b)
    (hd : ds[i + 1]? = some d) :
    b = a + stepAdvance sh d := by
  induction ds generalizing prev i with
  | nil => cases ha
  | cons e es ih =>
    cases i with
    | zero =>
      simp only [specYs, List.getElem?_cons_zero, Option.some.injEq] at ha
      simp only [specYs, List.getElem?_cons_succ] at hb hd
      rw [← ha]
      exact specYs_head sh (prev + stepAdvance sh e) es b d hb hd
    | succ j =>
      simp only [specYs, List.getElem?_cons_succ] at ha hb hd
      exact ih (prev + stepAdvance sh e) j ha hb hd

theorem stepAdvance_pos (sh : Int) (d : String) (hpos : 0 < sh) :
    0 < stepAdvance sh d := by
  unfold stepAdvance
  have e14 : descriptionOffset * descriptionOffsetFactor = (14 : Int) := by decide
  have hlc := lineCount_pos d
  rw [e14]
  omega

theorem stepY_ofInt (s : GoSequence) (d : String) (hs : ysSpec s.stepHeight s.steps) :
    stepY s d = Fl.ofInt
      ((specYs s.stepHeight (actorFontSize + 2) (s.steps.map fun st => st.Description)).getLastD
        (actorFontSize + 2) + stepAdvance s.stepHeight d) := by
  unfold ysSpec at hs
  unfold stepY
  cases hq : s.steps.getLast? with
  | none =>
    have hnil : s.steps = [] := List.getLast?_eq_none_iff.mp hq
    dsimp only
    rw [hnil]
    simp only [List.map_nil, specYs, List.getLastD_nil]
    rw [Fl_add_ofInt, Fl_add_ofInt]
    unfold stepAdvance
    congr 1
    ring
  | some last =>
    dsimp only
    have h1 : (s.steps.map (fun st => st.y)).getLast? = some last.y := by
      rw [List.getLast?_map, hq]
      rfl
    rw [hs, List.getLast?_map] at h1
    cases hL : (specYs s.stepHeight (actorFontSize + 2)
        (s.steps.map fun st => st.Description)).getLast? with
    | none =>
      rw [hL] at h1
      cases h1
    | some v =>
      rw [hL] at h1
      simp only [Option.map_some', Option.some.injEq] at h1
      rw [List.getLastD_eq_getLast?, hL]
      simp only [Option.getD_some]
      rw [← h1, Fl_add_ofInt, Fl_add_ofInt]
      unfold stepAdvance
      congr 1
      ring

theorem AddStep_ysSpec (s : GoSequence) (r : GoStep) (hs : ysSpec s.stepHeight s.steps) :
    ysSpec s.stepHeight (AddStep s r).steps := by
  have hstep := stepY_ofInt s r.Description hs
  unfold ysSpec at hs ⊢
  rw [AddStep_steps]
  simp only [List.map_append, List.map_cons, List.map_nil, addedStep_Description, addedStep_y]
  rw [specYs_snoc, List.map_append, hstep, ← hs]
  simp

theorem runSteps_ysSpec (s : GoSequence) (reqs : List GoStep)
    (hs : ysSpec s.stepHeight s.steps) :
    ysSpec s.stepHeight (runSteps s reqs).steps ∧ (runSteps s reqs).stepHeight = s.stepHeight := by
  induction reqs generalizing s with
  | nil => exact ⟨hs, rfl⟩
  | cons r rest ih =>
    have h1 : ysSpec (AddStep s r).stepHeight (AddStep s r).steps := by
      rw [AddStep_stepHeight]
      exact AddStep_ysSpec s r hs
    have h2 := ih (AddStep s r) h1
    unfold runSteps at h2 ⊢
    simp only [List.foldl_cons]
    rw [AddStep_stepHeight] at h2
    exact h2

/-- C2: for every run of `AddStep` calls on a stepless sequence with a
positive configured step height, consecutive steps have strictly increasing
vertical positions, with the delta determined by the new step's own
description: `stepHeight + (descriptionOffset*descriptionOffsetFactor) *
(lineCount(description) - 1)`; the first step sits at `(actorFontSize + 2)`
plus its own advance. -/
theorem claim_C2_monotonic_y (s0 : GoSequence) (reqs : List GoStep) (h0 : s0.steps = [])
    (hpos : 0 < s0.stepHeight) :
    (∀ (i : Nat) (st st1 : GoStep), (runSteps s0 reqs).steps[i]? = some st →
        (runSteps s0 reqs).steps[i + 1]? = some st1 →
        Fl.sub st1.y st.y = Fl.ofInt (stepAdvance s0.stepHeight st1.Description) ∧
        Fl.lt st.y st1.y) ∧
    (∀ st : GoStep, (runSteps s0 reqs).steps[0]? = some st →
        st.y = Fl.ofInt ((actorFontSize + 2) + stepAdvance s0.stepHeight st.Description)) := by
  have hbase : ysSpec s0.stepHeight s0.steps := by
    unfold ysSpec
    rw [h0]
    rfl
  obtain ⟨hspec, -⟩ := runSteps_ysSpec s0 reqs hbase
  unfold ysSpec at hspec
  have hpt : ∀ (i : Nat) (st : GoStep), (runSteps s0 reqs).steps[i]? = some st →
      ∃ v : Int, (specYs s0.stepHeight (actorFontSize + 2)
        ((runSteps s0 reqs).steps.map fun st => st.Description))[i]? = some v ∧
        st.y = Fl.ofInt v := by
    intro i st hst
    have h1 : ((runSteps s0 reqs).steps.map (fun st => st.y))[i]? = some st.y := by
      rw [List.getElem?_map, hst]
      rfl
    rw [hspec, List.getElem?_map] at h1
    cases hv : (specYs s0.stepHeight (actorFontSize + 2)
        ((runSteps s0 reqs).steps.map fun st => st.Description))[i]? with
    | none =>
      rw [hv] at h1
      cases h1
    | some v =>
      rw [hv] at h1
      simp only [Option.map_some', Option.some.injEq] at h1
      exact ⟨v, rfl, h1.symm⟩
  constructor
  · intro i st st1 hst hst1
    obtain ⟨a, hva, hya⟩ := hpt i st hst
    obtain ⟨b, hvb, hyb⟩ := hpt (i + 1) st1 hst1
    have hd : ((runSteps s0 reqs).steps.map fun st => st.Description)[i + 1]? =
        some st1.Description := by
      rw [List.getElem?_map, hst1]
      rfl
    have hab := specYs_succ s0.stepHeight (actorFontSize + 2) _ i a b st1.Description hva hvb hd
    refine ⟨?_, ?_⟩
    · rw [hya, hyb, Fl_sub_ofInt, hab]
      congr 1
      ring
    · rw [hya, hyb, Fl_lt_ofInt, hab]
      have := stepAdvance_pos s0.stepHeight st1.Description hpos
      omega
  · intro st hst
    obtain ⟨v, hv, hy⟩ := hpt 0 st hst
    have hd : ((runSteps s0 reqs).steps.map fun st => st.Description)[0]? =
        some st.Description := by
      rw [List.getElem?_map, hst]
      rfl
    rw [hy, specYs_head s0.stepHeight (actorFontSize + 2) _ v st.Description hv hd]

/-- Witness for C2 on the concrete two-step run (second step has a two-line
description, so its advance is 50 + 14). -/
theorem claim_C2_witness :
    NewSequence.steps = [] ∧ 0 < NewSequence.stepHeight ∧
    Fl.sub c2step1.y c2step0.y = Fl.ofInt (stepAdvance NewSequence.stepHeight c2step1.Description) ∧
    Fl.lt c2step0.y c2step1.y :=
  ⟨rfl, by decide,
    (claim_C2_monotonic_y NewSequence [stepAB, stepTwoLines] rfl (by decide)).1 0 c2step0 c2step1
      (by decide) (by decide)⟩

/-! ## Claim C8 -/

theorem generateBody_elements (s : GoSequence) (o : List String) :
    (generateBody s o).elements =
      [SvgElem.defsElem] ++
      [SvgElem.rectElem (Fl.ofInt 0) (Fl.ofInt 0) (Fl.ofInt (totalWidth s o))
        (Fl.ofInt (totalHeight s)) "#FFFFFF" (Fl.ofInt 0) "" 0] ++
      (drawActors s (totalHeight s)).1 ++
      ((resolveStepsLoop s (laneMap s) s.steps s.sections).2.map
        (drawSection s.verticalSectionText)).flatten ++
      ((resolvedSteps s).map drawStep).flatten := rfl

theorem resolveStepsLoop_fst (s : GoSequence) (m : List (String × Fl)) (steps : List GoStep)
    (secs : List GoSection) :
    (resolveStepsLoop s m steps secs).1 = steps.map fun st =>
      { st with x1 := (mapLookup m st.SourceActor).getD (Fl.ofInt 0),
                x2 := (mapLookup m st.TargetActor).getD (Fl.ofInt 0) } := by
  induction steps generalizing secs with
  | nil => rfl
  | cons st rest ih =>
    simp only [resolveStepsLoop, List.map_cons, List.cons.injEq]
    exact ⟨trivial, ih _⟩

theorem drawDescLoop_no_line (st : GoStep) (ps : List String) (off : Fl) (e : SvgElem)
    (he : e ∈ drawDescLoop st ps off) : isDirectedLine e = false := by
  induction ps generalizing off with
  | nil => cases he
  | cons p rest ih =>
    simp only [drawDescLoop, List.mem_cons] at he
    cases he with
    | inl h => rw [h]; rfl
    | inr h => exact ih _ h

theorem drawStep_self (st : GoStep) (h : Fl.eqv st.x1 st.x2) :
    (drawStep st).head? = some (SvgElem.circleElem st.x1 st.y 4 st.Color) ∧
    SvgElem.circleElem st.x1 st.y 4 st.Color ∈ drawStep st ∧
    ∀ e ∈ drawStep st, isDirectedLine e = false := by
  unfold drawStep
  dsimp only
  rw [if_pos h]
  refine ⟨rfl, List.mem_cons_self _ _, ?_⟩
  intro e he
  simp only [List.cons_append, List.nil_append, List.mem_cons] at he
  cases he with
  | inl h1 => rw [h1]; rfl
  | inr h1 =>
    split at h1
    · exact drawDescLoop_no_line st _ _ e h1
    · cases h1

/-- C8: for every successful generation and every step whose source actor
equals its target actor, the resolved step has coinciding endpoints at the
source actor's lane coordinate, its rendering starts with a point marker
(circle at the shared lane x and the step's y) and contains no directed-line
primitive, and that circle is among the emitted elements. -/
theorem claim_C8_self_call (s : GoSequence) (o : List String) (out : SvgOut)
    (hg : generate s o = .ok out) (i : Nat) (req : GoStep)
    (hreq : s.steps[i]? = some req) (hself : req.SourceActor = req.TargetActor) :
    ∃ st : GoStep,
      (resolvedSteps (setupSections s))[i]? = some st ∧
      st.x1 = (mapLookup (laneMap (setupSections s)) req.SourceActor).getD (Fl.ofInt 0) ∧
      st.x2 = st.x1 ∧
      st.y = req.y ∧
      (drawStep st).head? = some (SvgElem.circleElem st.x1 st.y 4 st.Color) ∧
      (∀ e ∈ drawStep st, isDirectedLine e = false) ∧
      SvgElem.circleElem st.x1 st.y 4 st.Color ∈ out.elements := by
  obtain ⟨hout, -⟩ := generate_ok hg
  have hsteps : (setupSections s).steps = s.steps := rfl
  set st : GoStep :=
    { req with x1 := (mapLookup (laneMap (setupSections s)) req.SourceActor).getD (Fl.ofInt 0),
               x2 := (mapLookup (laneMap (setupSections s)) req.TargetActor).getD (Fl.ofInt 0) }
    with hstdef
  have hres : (resolvedSteps (setupSections s))[i]? = some st := by
    unfold resolvedSteps
    rw [resolveStepsLoop_fst, List.getElem?_map, hsteps, hreq]
    rfl
  have hx2 : st.x2 = st.x1 := by
    rw [hstdef]
    dsimp only
    rw [hself]
  have heqv : Fl.eqv st.x1 st.x2 := by
    rw [hx2]
    unfold Fl.eqv
    rfl
  obtain ⟨hhead, hmem, hnoline⟩ := drawStep_self st heqv
  refine ⟨st, hres, rfl, hx2, rfl, hhead, hnoline, ?_⟩
  rw [hout, generateBody_elements]
  refine List.mem_append_right _ ?_
  refine List.mem_flatten.mpr ⟨drawStep st, ?_, hmem⟩
  exact List.mem_map_of_mem drawStep (List.getElem?_mem hres)

/-- Witness for C8 at the self-call step (index 1) of the README example. -/
theorem claim_C8_witness :
    exSeq.steps[1]? = some c8req ∧ c8req.SourceActor = c8req.TargetActor ∧
    (drawStep c8st).head? = some (SvgElem.circleElem c8st.x1 c8st.y 4 c8st.Color) ∧
    SvgElem.circleElem c8st.x1 c8st.y 4 c8st.Color ∈
      (generateBody (setupSections exSeq) ["Bob", "Maria"]).elements := by
  have hg : generate exSeq ["Bob", "Maria"] =
      .ok (generateBody (setupSections exSeq) ["Bob", "Maria"]) := by decide
  obtain ⟨st, hres, hx1, hx2, hy, hhead, hnl, hmem⟩ :=
    claim_C8_self_call exSeq ["Bob", "Maria"] _ hg 1 c8req (by decide) (by decide)
  have hc : c8st = st := by
    unfold c8st
    rw [hres]
    rfl
  rw [hc]
  exact ⟨by decide, by decide, hhead, hmem⟩

/-! ## Claim C3 -/

theorem checkStepsActors_ok (l : List GoStep)
    (hstep : ∀ st ∈ l, st.SourceActor ≠ "" ∧ st.TargetActor ≠ "") (i : Nat) :
    checkStepsActors l i = .ok () := by
  induction l generalizing i with
  | nil => rfl
  | cons st rest ih =>
    obtain ⟨h1, h2⟩ := hstep st (List.mem_cons_self st rest)
    unfold checkStepsActors
    rw [if_neg (by tauto)]
    exact ih (fun t ht => hstep t (List.mem_cons_of_mem st ht)) (i + 1)

theorem firstOpenSection_none (l : List GoSection)
    (h : ∀ sec ∈ l, sec.lastStepIndex.isSome) : firstOpenSection l = none := by
  induction l with
  | nil => rfl
  | cons sec rest ih =>
    unfold firstOpenSection
    have hs := h sec (List.mem_cons_self sec rest)
    rw [if_neg (by intro hn; rw [hn] at hs; simp at hs)]
    exact ih fun t ht => h t (List.mem_cons_of_mem sec ht)

theorem setup_ok_of (t : GoSequence) (hc : checkStepsActors t.steps 0 = .ok ())
    (hall : ∀ sec ∈ (setupSections t).sections, sec.lastStepIndex.isSome) :
    setup t = .ok (setupSections t) := by
  unfold setup
  rw [hc, firstOpenSection_none _ hall]

theorem setup_error_of (t : GoSequence) (sec : GoSection)
    (hc : checkStepsActors t.steps 0 = .ok ())
    (hfo : firstOpenSection (setupSections t).sections = some sec) :
    setup t = .error ("found open section: " ++ sec.name) := by
  unfold setup
  rw [hc, hfo]

theorem generate_ok_of (t : GoSequence) (o : List String) (hA : t.actors.length ≠ 0)
    (hS : t.steps.length ≠ 0) (hsetup : setup t = .ok (setupSections t)) :
    generate t o = .ok (generateBody (setupSections t) o) := by
  unfold generate
  rw [if_neg hA, if_neg hS, hsetup]

theorem generate_error_of (t : GoSequence) (o : List String) (e : String)
    (hA : t.actors.length ≠ 0) (hS : t.steps.length ≠ 0) (hsetup : setup t = .error e) :
    generate t o = .error e := by
  unfold generate
  rw [if_neg hA, if_neg hS, hsetup]

/-- C3, counterexample: the claim says a sequence (with an actor and a step)
holding a section that was opened and never closed makes `Generate` fail
naming that section.  For `AddStep(a→b); OpenSection("S")` the section `S`
was opened and never closed — its last member index is unset — yet
`Generate` succeeds, because `setup` discards sections that never received a
step before checking for unclosed ones. -/
theorem claim_C3_counterexample :
    (OpenSection (AddStep NewSequence stepAB) "S" "").sections.map
      (fun sec => (sec.name, sec.firstStepIndex, sec.lastStepIndex)) = [("S", none, none)] ∧
    (generate (OpenSection (AddStep NewSequence stepAB) "S" "") ["a", "b"]).isOk = true := by
  exact ⟨by decide, by decide⟩

/-- C3, amended: for every sequence with at least one actor and one step,
all of whose steps name non-empty source and target actors: if some section
that received a step was never closed, `Generate` fails naming the first
such section (sections that never received a step are discarded first and
cause no error, contrary to the original claim); and if `CloseAllSections`
is called before `Generate` instead, `Generate` succeeds. -/
theorem claim_C3_unclosed_section (s : GoSequence) (o : List String)
    (hA : 0 < s.actors.length) (hS : 0 < s.steps.length)
    (hstep : ∀ st ∈ s.steps, st.SourceActor ≠ "" ∧ st.TargetActor ≠ "") :
    (∀ sec : GoSection,
      firstOpenSection ((setupSections s).sections) = some sec →
      generate s o = .error ("found open section: " ++ sec.name)) ∧
    generate (CloseAllSections s) o =
      .ok (generateBody (setupSections (CloseAllSections s)) o) := by
  have hc : checkStepsActors s.steps 0 = .ok () := checkStepsActors_ok s.steps hstep 0
  constructor
  · intro sec hsec
    exact generate_error_of s o _ (by omega) (by omega) (setup_error_of s sec hc hsec)
  · have hsteps : (CloseAllSections s).steps = s.steps := rfl
    refine generate_ok_of (CloseAllSections s) o (by show s.actors.length ≠ 0; omega)
      (by rw [hsteps]; omega) (setup_ok_of _ (by rw [hsteps]; exact hc) ?_)
    intro sec hsec
    have hmem : sec ∈ (CloseAllSections s).sections := List.mem_of_mem_filter hsec
    unfold CloseAllSections at hmem
    simp only [List.mem_filter] at hmem
    exact (Bool.and_eq_true _ _ |>.mp hmem.2).2

/-- Witness for C3 on a concrete sequence: one step inside section `S`,
never closed — `Generate` fails naming `S`; after `CloseAllSections` it
succeeds. -/
theorem claim_C3_witness :
    generate (AddStep (OpenSection (AddStep NewSequence stepAB) "S" "") stepAB) ["a", "b"] =
      .error ("found open section: " ++ "S") ∧
    generate (CloseAllSections (AddStep (OpenSection (AddStep NewSequence stepAB) "S" "") stepAB))
        ["a", "b"] =
      .ok (generateBody (setupSections (CloseAllSections
        (AddStep (OpenSection (AddStep NewSequence stepAB) "S" "") stepAB))) ["a", "b"]) := by
  have h := claim_C3_unclosed_section
    (AddStep (OpenSection (AddStep NewSequence stepAB) "S" "") stepAB) ["a", "b"]
    (by decide) (by decide) (by decide)
  refine ⟨?_, h.2⟩
  have hfo : firstOpenSection ((setupSections
      (AddStep (OpenSection (AddStep NewSequence stepAB) "S" "") stepAB)).sections) =
      some ((setupSections
        (AddStep (OpenSection (AddStep NewSequence stepAB) "S" "") stepAB)).sections.headD
          { id := 0, name := "S", color := "#000000", firstStepIndex := none,
            lastStepIndex := none, x := Fl.ofInt 0, x2 := Fl.ofInt 0, y := Fl.ofInt 0,
            width := Fl.ofInt 0, height := -10 }) := by decide
  have h2 := h.1 _ hfo
  have hname : ((setupSections
      (AddStep (OpenSection (AddStep NewSequence stepAB) "S" "") stepAB)).sections.headD
        { id := 0, name := "S", color := "#000000", firstStepIndex := none,
          lastStepIndex := none, x := Fl.ofInt 0, x2 := Fl.ofInt 0, y := Fl.ofInt 0,
          width := Fl.ofInt 0, height := -10 }).name = "S" := by decide
  rw [hname] at h2
  exact h2

/-! ## Claim C7 -/

theorem closeFromEnd_append_stepless (idx : Int) (l : List GoSection) (sec : GoSection)
    (h : sec.firstStepIndex = none) :
    (closeFromEnd idx (l ++ [sec])).1 = (closeFromEnd idx l).1 ++ [sec] ∧
    (closeFromEnd idx (l ++ [sec])).2 = (closeFromEnd idx l).2 := by
  induction l with
  | nil =>
    simp only [List.nil_append]
    unfold closeFromEnd
    rw [h]
    unfold closeFromEnd
    simp
  | cons a rest ih =>
    obtain ⟨ih1, ih2⟩ := ih
    simp only [List.cons_append]
    unfold closeFromEnd
    dsimp only
    rw [ih1, ih2]
    split
    · simp
    · split <;> simp

theorem setupSections_idem (t : GoSequence) :
    setupSections (setupSections t) = setupSections t := by
  unfold setupSections
  simp [List.filter_filter]

theorem setup_setupSections (t : GoSequence) : setup (setupSections t) = setup t := by
  unfold setup
  rw [show (setupSections t).steps = t.steps from rfl, setupSections_idem]

/-- C7, counterexample: the claim says opening a section and closing it with
zero steps added in between never causes an error.  After
`AddStep(a→b); OpenSection("S"); CloseSection()`, the close is a no-op (the
section list is unchanged, since `S` has no first member index); a later
`AddStep` then hands `S` its first member index, leaving it unclosed, and
`Generate` fails naming `S`. -/
theorem claim_C7_counterexample :
    (CloseSection (OpenSection (AddStep NewSequence stepAB) "S" "")).sections =
      (OpenSection (AddStep NewSequence stepAB) "S" "").sections ∧
    generate (AddStep (CloseSection (OpenSection (AddStep NewSequence stepAB) "S" ""))
        stepAB) ["a", "b"] =
      .error ("found open section: " ++ "S") := by
  exact ⟨by decide, by decide⟩

/-- C7, amended: closing a section opened with zero steps added in between is
a no-op on that section — it keeps neither index (though the call may close
an earlier step-bearing section); and sections without a first member index
are invisible to `Generate`: removing them (which is what `setup` does first)
never changes the result, so such a section never errors and appears nowhere
in the output.  If a step is added after the no-op close, however, the
section acquires members and stays open, failing generation (see the
counterexample). -/
theorem claim_C7_empty_section_discard :
    (∀ (s : GoSequence) (name color : String), name ≠ "" →
      (CloseSection (OpenSection s name color)).sections.getLast? =
        some { id := s.secCounter, name := name,
               color := if color = "" then "#000000" else color,
               firstStepIndex := none, lastStepIndex := none,
               x := Fl.ofInt 0, x2 := Fl.ofInt 0, y := Fl.ofInt 0, width := Fl.ofInt 0,
               height := -10 }) ∧
    (∀ (t : GoSequence) (o : List String), generate t o = generate (setupSections t) o) := by
  constructor
  · intro s name color hname
    unfold CloseSection OpenSection
    rw [if_neg hname]
    dsimp only
    rw [(closeFromEnd_append_stepless _ s.sections _ rfl).1]
    simp
  · intro t o
    unfold generate
    rw [show (setupSections t).actors = t.actors from rfl,
        show (setupSections t).steps = t.steps from rfl, setup_setupSections]

/-- Witness for C7: the no-op close on a freshly opened stepless section, and
invariance of `Generate` under removing index-less sections, at concrete
inputs. -/
theorem claim_C7_witness :
    ("S" : String) ≠ "" ∧
    (CloseSection (OpenSection (AddStep NewSequence stepAB) "S" "")).sections.getLast? =
      some { id := (AddStep NewSequence stepAB).secCounter, name := "S",
             color := if ("" : String) = "" then "#000000" else "",
             firstStepIndex := none, lastStepIndex := none,
             x := Fl.ofInt 0, x2 := Fl.ofInt 0, y := Fl.ofInt 0, width := Fl.ofInt 0,
             height := -10 } ∧
    generate (OpenSection (AddStep NewSequence stepAB) "S" "") ["a", "b"] =
      generate (setupSections (OpenSection (AddStep NewSequence stepAB) "S" "")) ["a", "b"] :=
  ⟨by decide,
    claim_C7_empty_section_discard.1 (AddStep NewSequence stepAB) "S" "" (by decide),
    claim_C7_empty_section_discard.2 (OpenSection (AddStep NewSequence stepAB) "S" "")
      ["a", "b"]⟩

/-! ## Claim C9 -/

theorem processAll_append (s : GoSequence) (l1 l2 : List String) (n : Nat) :
    processAll s (l1 ++ l2) n =
      match processAll s l1 n with
      | .error e => .error e
      | .ok s1 => processAll s1 l2 (n + l1.length) := by
  induction l1 generalizing s n with
  | nil => simp [processAll]
  | cons a t ih =>
    simp only [List.cons_append, processAll, List.append_eq]
    cases hpl : processLine s a n with
    | error e => rfl
    | ok s1 =>
      dsimp only
      rw [ih]
      have harith : n + 1 + t.length = n + (a :: t).length := by
        simp only [List.length_cons]
        omega
      rw [harith]

theorem head_of_strSplitOn (sv : String) (c : Char) (w : String)
    (h : (strSplitOn sv c).headD "" = w) (hw : w ≠ "") :
    sv.data.headD ' ' = w.data.headD ' ' := by
  unfold strSplitOn at h
  cases hl : sv.data with
  | nil =>
    rw [hl] at h
    exact absurd (h.symm.trans rfl) hw
  | cons b bs =>
    rw [hl] at h
    unfold splitOnChar at h
    by_cases hb : b = c
    · rw [if_pos hb] at h
      simp only [List.map_cons, List.headD_cons] at h
      exact absurd h.symm (by simpa using hw)
    · rw [if_neg hb] at h
      cases hsp : splitOnChar c bs with
      | nil => exact absurd hsp (splitOnChar_ne_nil c bs)
      | cons g gs =>
        rw [hsp] at h
        simp only [List.map_cons, List.headD_cons] at h
        rw [← h]
        rfl

theorem processLine_step_short (s : GoSequence) (raw : String) (k : Nat)
    (hp : (strSplitOn (strTrim raw) ' ').headD "" = "@step")
    (hshort : (parseProperty (strTrim raw) "@step").length < 2) :
    processLine s raw k = .error ("not enough values for step at line " ++ toString k) := by
  have hne : strTrim raw ≠ "" := by
    intro h0
    rw [h0] at hp
    exact absurd hp (by decide)
  have hat : (strTrim raw).data.headD ' ' = '@' :=
    head_of_strSplitOn (strTrim raw) ' ' "@step" hp (by decide)
  unfold processLine
  rw [if_neg hne, if_neg (by rw [hat]; decide)]
  dsimp only
  rw [hp, if_neg (by decide), if_neg (by decide), if_neg (by decide), if_neg (by decide),
    if_pos rfl]
  cases hv : parseProperty (strTrim raw) "@step" with
  | nil => rfl
  | cons a t =>
    cases t with
    | nil => rfl
    | cons b t2 =>
      rw [hv] at hshort
      simp at hshort
      omega

/-- C9: if line `k` (1-based) of the config content is a `@step` directive
with fewer than two comma-separated values remaining after trimming,
backslash-n decoding and dropping empties, and the earlier lines process
without error, then `GenerateFromCFG` fails with "not enough values for step
at line k" and produces no output; and processing a well-formed `@step` line
decodes literal backslash-n sequences in the description to real line
breaks. -/
theorem claim_C9_step_parse (content : String) (k : Nat) (hk : 0 < k) (l : String)
    (s : GoSequence)
    (hline : (splitLines content)[k - 1]? = some l)
    (hprev : processAll NewSequence ((splitLines content).take (k - 1)) 1 = .ok s)
    (hp : (strSplitOn (strTrim l) ' ').headD "" = "@step")
    (hshort : (parseProperty (strTrim l) "@step").length < 2) :
    (∀ o : List String,
      generateFromCFG content o = .error ("not enough values for step at line " ++ toString k)) ∧
    (∀ (t : GoSequence) (n : Nat),
      processLine t "@step src, tgt, first\\nsecond" n =
        .ok (AddStep t { Description := "first\nsecond", SourceActor := "src",
                         TargetActor := "tgt", Color := "" })) := by
  constructor
  · intro o
    have hlen : k - 1 < (splitLines content).length := by
      by_contra hge
      rw [List.getElem?_eq_none_iff.mpr (by omega)] at hline
      cases hline
    have hdrop : (splitLines content).drop (k - 1) = l :: (splitLines content).drop k := by
      rw [List.drop_eq_getElem_cons hlen, List.getElem_eq_iff.mpr hline]
      have hk1 : k - 1 + 1 = k := by omega
      rw [hk1]
    have hconcat : splitLines content =
        (splitLines content).take (k - 1) ++ (l :: (splitLines content).drop k) := by
      conv_lhs => rw [← List.take_append_drop (k - 1) (splitLines content)]
      rw [hdrop]
    unfold generateFromCFG
    rw [hconcat, processAll_append, hprev]
    dsimp only
    have hn : 1 + ((splitLines content).take (k - 1)).length = k := by
      rw [List.length_take]
      omega
    rw [hn]
    unfold processAll
    rw [processLine_step_short s l k hp hshort]
  · intro t n
    rfl

/-- Witness for C9: a two-line config whose second line is `@step onlyone`,
and the backslash-n decoding at concrete inputs. -/
theorem claim_C9_witness :
    generateFromCFG "# comment\n@step onlyone" [] =
      .error ("not enough values for step at line " ++ toString 2) ∧
    processLine NewSequence "@step src, tgt, first\\nsecond" 3 =
      .ok (AddStep NewSequence { Description := "first\nsecond", SourceActor := "src",
                                 TargetActor := "tgt", Color := "" }) := by
  have h := claim_C9_step_parse "# comment\n@step onlyone" 2 (by decide) "@step onlyone"
    NewSequence (by decide) (by decide) (by decide) (by decide)
  exact ⟨h.1 [], h.2 NewSequence 3⟩

/-! ## Claim C10 -/

theorem addStepSecLoop_fst (idx : Int) (secs : List GoSection) (cur : Option Nat) :
    (addStepSecLoop idx secs cur).1 = secs.map fun sec =>
      if sec.firstStepIndex = none then { sec with firstStepIndex := some idx } else sec := by
  induction secs generalizing cur with
  | nil => rfl
  | cons sec rest ih =>
    unfold addStepSecLoop
    dsimp only
    rw [ih, List.map_cons]

theorem closeFromEnd_mem (idx : Int) (l : List GoSection) :
    ∀ sec1 ∈ (closeFromEnd idx l).1, sec1 ∈ l ∨
      ∃ sec ∈ l, sec.firstStepIndex.isSome ∧ sec.lastStepIndex = none ∧
        sec1 = { sec with lastStepIndex := some idx } := by
  induction l with
  | nil =>
    intro sec1 h
    simp [closeFromEnd] at h
  | cons a rest ih =>
    intro sec1 h
    unfold closeFromEnd at h
    dsimp only at h
    split at h
    · rcases List.mem_cons.mp h with h1 | h1
      · exact Or.inl (h1 ▸ List.mem_cons_self a rest)
      · rcases ih sec1 h1 with h2 | ⟨sec, hm, hc⟩
        · exact Or.inl (List.mem_cons_of_mem a h2)
        · exact Or.inr ⟨sec, List.mem_cons_of_mem a hm, hc⟩
    · split at h
      · rename_i hcond
        rcases List.mem_cons.mp h with h1 | h1
        · right
          refine ⟨a, List.mem_cons_self a rest, ?_, ?_, h1⟩
          · exact (Bool.and_eq_true _ _ |>.mp hcond).1
          · have := (Bool.and_eq_true _ _ |>.mp hcond).2
            simpa using this
        · rcases ih sec1 h1 with h2 | ⟨sec, hm, hc⟩
          · exact Or.inl (List.mem_cons_of_mem a h2)
          · exact Or.inr ⟨sec, List.mem_cons_of_mem a hm, hc⟩
      · rcases List.mem_cons.mp h with h1 | h1
        · exact Or.inl (h1 ▸ List.mem_cons_self a rest)
        · rcases ih sec1 h1 with h2 | ⟨sec, hm, hc⟩
          · exact Or.inl (List.mem_cons_of_mem a h2)
          · exact Or.inr ⟨sec, List.mem_cons_of_mem a hm, hc⟩

theorem ensureActor_sections (s : GoSequence) (a : String) :
    (ensureActor s a).sections = s.sections := by
  unfold ensureActor
  split <;> rfl

theorem ite_seq_sections (b : Prop) [Decidable b] (t : GoSequence) (a : String) :
    (if b then ensureActor t a else t).sections = t.sections := by
  split
  · exact ensureActor_sections t a
  · rfl

theorem AddStep_sections (s : GoSequence) (r : GoStep) :
    (AddStep s r).sections = (addStepSecLoop (s.steps.length : Int) s.sections none).1 := by
  unfold AddStep
  dsimp only
  rw [ite_seq_sections, ite_seq_sections]

theorem secIndexInv_AddStep (s : GoSequence) (r : GoStep) (h : secIndexInv s) :
    secIndexInv (AddStep s r) := by
  intro sec1 hmem
  rw [AddStep_sections, addStepSecLoop_fst] at hmem
  rw [AddStep_steps, List.length_append]
  obtain ⟨sec, hsec, heq⟩ := List.mem_map.mp hmem
  obtain ⟨hf, hl⟩ := h sec hsec
  by_cases hfn : sec.firstStepIndex = none
  · rw [if_pos hfn] at heq
    subst heq
    constructor
    · intro f hf1
      simp only [Option.some.injEq] at hf1
      subst hf1
      simp only [List.length_cons, List.length_nil]
      constructor
      · omega
      · push_cast
        omega
    · intro lx hl1
      obtain ⟨f0, hf0, -, -⟩ := hl lx hl1
      rw [hfn] at hf0
      cases hf0
  · rw [if_neg hfn] at heq
    subst heq
    constructor
    · intro f hf1
      obtain ⟨h1, h2⟩ := hf f hf1
      simp only [List.length_cons, List.length_nil]
      constructor
      · exact h1
      · push_cast
        omega
    · intro lx hl1
      obtain ⟨f0, hf0, h1, h2⟩ := hl lx hl1
      refine ⟨f0, hf0, h1, ?_⟩
      simp only [List.length_cons, List.length_nil]
      push_cast
      omega

theorem secIndexInv_CloseSection (s : GoSequence) (h : secIndexInv s) :
    secIndexInv (CloseSection s) := by
  intro sec1 hmem
  unfold CloseSection at hmem
  dsimp only at hmem
  show (∀ f : Int, sec1.firstStepIndex = some f → 0 ≤ f ∧ f < (s.steps.length : Int)) ∧
    (∀ lx : Int, sec1.lastStepIndex = some lx →
      ∃ f : Int, sec1.firstStepIndex = some f ∧ f ≤ lx ∧ lx < (s.steps.length : Int))
  rcases closeFromEnd_mem _ s.sections sec1 hmem with h1 | ⟨sec, hm, hfs, hln, heq⟩
  · exact h sec1 h1
  · obtain ⟨hf, -⟩ := h sec hm
    obtain ⟨f0, hf0⟩ := Option.isSome_iff_exists.mp hfs
    obtain ⟨hge, hlt⟩ := hf f0 hf0
    subst heq
    constructor
    · intro f hf1
      exact hf f hf1
    · intro lx hl1
      simp only [Option.some.injEq] at hl1
      refine ⟨f0, hf0, ?_, ?_⟩ <;> omega

theorem secIndexInv_CloseAllSections (s : GoSequence) (h : secIndexInv s) :
    secIndexInv (CloseAllSections s) := by
  intro sec1 hmem
  unfold CloseAllSections at hmem
  dsimp only at hmem
  have hmem2 := List.mem_of_mem_filter hmem
  obtain ⟨sec, hm, heq⟩ := List.mem_map.mp hmem2
  show (∀ f : Int, sec1.firstStepIndex = some f → 0 ≤ f ∧ f < (s.steps.length : Int)) ∧
    (∀ lx : Int, sec1.lastStepIndex = some lx →
      ∃ f : Int, sec1.firstStepIndex = some f ∧ f ≤ lx ∧ lx < (s.steps.length : Int))
  obtain ⟨hf, hl⟩ := h sec hm
  by_cases hc : sec.firstStepIndex.isSome && sec.lastStepIndex == none
  · rw [if_pos hc] at heq
    obtain ⟨f0, hf0⟩ := Option.isSome_iff_exists.mp (Bool.and_eq_true _ _ |>.mp hc).1
    obtain ⟨hge, hlt⟩ := hf f0 hf0
    subst heq
    constructor
    · intro f hf1
      exact hf f hf1
    · intro lx hl1
      simp only [Option.some.injEq] at hl1
      refine ⟨f0, hf0, ?_, ?_⟩ <;> omega
  · rw [if_neg hc] at heq
    subst heq
    exact ⟨hf, hl⟩

theorem secIndexInv_applyCall (s : GoSequence) (c : Call) (h : secIndexInv s) :
    secIndexInv (applyCall s c) := by
  cases c with
  | addActors actors => exact h
  | addStep st => exact secIndexInv_AddStep s st h
  | openSection name color =>
    show secIndexInv (OpenSection s name color)
    unfold OpenSection
    split
    · exact h
    · intro sec1 hmem
      show (∀ f : Int, sec1.firstStepIndex = some f → 0 ≤ f ∧ f < (s.steps.length : Int)) ∧
        (∀ lx : Int, sec1.lastStepIndex = some lx →
          ∃ f : Int, sec1.firstStepIndex = some f ∧ f ≤ lx ∧ lx < (s.steps.length : Int))
      rcases List.mem_append.mp hmem with h1 | h1
      · exact h sec1 h1
      · simp only [List.mem_singleton] at h1
        constructor
        · intro f hf1
          rw [h1] at hf1
          cases hf1
        · intro lx hl1
          rw [h1] at hl1
          cases hl1
  | closeSection => exact secIndexInv_CloseSection s h
  | closeAllSections => exact secIndexInv_CloseAllSections s h
  | setDistance d => exact h
  | setWidth w => exact h
  | setHeight hh => exact h
  | setStepHeight hh => exact h
  | setVerticalSectionText b => exact h

theorem secIndexInv_run (cs : List Call) : secIndexInv (run cs) := by
  have hfold : ∀ s, secIndexInv s → secIndexInv (cs.foldl applyCall s) := by
    induction cs with
    | nil => exact fun s hs => hs
    | cons c t ih => exact fun s hs => ih _ (secIndexInv_applyCall s c hs)
  exact hfold NewSequence (fun sec hmem => absurd hmem (List.not_mem_nil sec))

theorem setup_ok_parts {s s' : GoSequence} (hg : setup s = .ok s') :
    s' = setupSections s ∧ firstOpenSection (setupSections s).sections = none := by
  unfold setup at hg
  split at hg
  · cases hg
  · split at hg
    · cases hg
    · rename_i heq
      cases hg
      exact ⟨rfl, heq⟩

theorem firstOpenSection_eq_none (l : List GoSection) (h : firstOpenSection l = none) :
    ∀ sec ∈ l, sec.lastStepIndex ≠ none := by
  induction l with
  | nil => intro sec hm; cases hm
  | cons a rest ih =>
    unfold firstOpenSection at h
    intro sec hm
    by_cases ha : a.lastStepIndex = none
    · rw [if_pos ha] at h
      cases h
    · rw [if_neg ha] at h
      rcases List.mem_cons.mp hm with h1 | h1
      · rw [h1]
        exact ha
      · exact ih h sec h1

/-- C10: whenever `setup` succeeds on a state built by any sequence of public
construction calls, every remaining section has both member indices set,
with `0 ≤ firstStepIndex ≤ lastStepIndex < number of steps`. -/
theorem claim_C10_section_index_invariant (cs : List Call) (s' : GoSequence)
    (hsetup : setup (run cs) = .ok s') :
    ∀ sec ∈ s'.sections, ∃ f lx : Int,
      sec.firstStepIndex = some f ∧ sec.lastStepIndex = some lx ∧
      0 ≤ f ∧ f ≤ lx ∧ lx < (s'.steps.length : Int) := by
  obtain ⟨hs', hfo⟩ := setup_ok_parts hsetup
  subst hs'
  intro sec hmem
  have hmem0 : sec ∈ (run cs).sections := List.mem_of_mem_filter hmem
  have hinv := secIndexInv_run cs sec hmem0
  have hlast := firstOpenSection_eq_none _ hfo sec hmem
  cases hl : sec.lastStepIndex with
  | none => exact absurd hl hlast
  | some lx =>
    obtain ⟨f, hf, hle, hlt⟩ := hinv.2 lx hl
    obtain ⟨hge, -⟩ := hinv.1 f hf
    refine ⟨f, lx, hf, rfl, hge, hle, ?_⟩
    show lx < ((run cs).steps.length : Int)
    exact hlt

/-- Witness for C10 on the concrete run: the surviving section has first and
last member index 1, within the two steps. -/
theorem claim_C10_witness :
    setup (run c10calls) = .ok (setupSections (run c10calls)) ∧
    c10sec ∈ (setupSections (run c10calls)).sections ∧
    c10sec.firstStepIndex = some 1 ∧ c10sec.lastStepIndex = some 1 ∧
    (1 : Int) < ((setupSections (run c10calls)).steps.length : Int) := by
  have hsetup : setup (run c10calls) = .ok (setupSections (run c10calls)) := by decide
  have hmem : c10sec ∈ (setupSections (run c10calls)).sections := by decide
  obtain ⟨f, lx, hf, hl, h0, h1, h2⟩ :=
    claim_C10_section_index_invariant c10calls _ hsetup c10sec hmem
  have hf1 : f = 1 := by
    have hx : c10sec.firstStepIndex = some 1 := by decide
    rw [hx] at hf
    exact (Option.some.inj hf).symm
  have hl1 : lx = 1 := by
    have hx : c10sec.lastStepIndex = some 1 := by decide
    rw [hx] at hl
    exact (Option.some.inj hl).symm
  subst hf1
  subst hl1
  exact ⟨hsetup, hmem, by decide, by decide, h2⟩

end SvgSeq
